import Mathlib

/-!
Shallow embedding of the osrs-clan-butler data models and the operations the
verified properties are about.

Conventions used throughout:
* Python `int` is embedded as `Int`; Python `float` values that the program
  only ever combines with exact arithmetic (scores, token counts, rates) are
  embedded as `Rat`.
* Python methods that mutate `self` become pure functions returning the new
  state; a method that can raise returns the raise site as an explicit error
  value together with the state at the moment of the raise.
* `datetime.utcnow()` timestamps are threaded as opaque `String` parameters
  (`now`); wall-clock elapsed time for the rate limiter is threaded as an
  explicit `Rat` parameter.
* Python `dict`s keyed by `str(user_id)` are embedded as insertion-ordered
  association lists keyed by the integer id itself (int → str is injective,
  so the key spaces are in bijection).
-/

namespace OsrsClanButler

/-! ### Association-list helpers (model of Python dict operations) -/

/-- Membership / `dict.get` on an insertion-ordered association list. -/
def lookupKey {β : Type} (k : Int) : List (Int × β) → Option β
  | [] => none
  | (k', v) :: l => if k' = k then some v else lookupKey k l

/-- `dict[k] = v`: replace in place if present, else append (Python dict
insertion order semantics). -/
def setKey {β : Type} (k : Int) (v : β) : List (Int × β) → List (Int × β)
  | [] => [(k, v)]
  | (k', w) :: l => if k' = k then (k, v) :: l else (k', w) :: setKey k v l

/-- `del d[k]`: remove the (unique) entry with key `k`. -/
def eraseKey {β : Type} (k : Int) : List (Int × β) → List (Int × β)
  | [] => []
  | (k', v) :: l => if k' = k then l else (k', v) :: eraseKey k l

theorem lookupKey_setKey_self {β : Type} (k : Int) (v : β) :
    ∀ l : List (Int × β), lookupKey k (setKey k v l) = some v := by
  intro l
  induction l with
  | nil => simp [setKey, lookupKey]
  | cons hd tl ih =>
    by_cases h : hd.1 = k
    · simp [setKey, h, lookupKey]
    · simpa [setKey, h, lookupKey] using ih

theorem lookupKey_setKey_ne {β : Type} (k k' : Int) (v : β) (hne : k' ≠ k) :
    ∀ l : List (Int × β), lookupKey k' (setKey k v l) = lookupKey k' l := by
  intro l
  induction l with
  | nil => simp [setKey, lookupKey, Ne.symm hne]
  | cons hd tl ih =>
    by_cases h : hd.1 = k
    · subst h
      have : ¬ (hd.1 = k') := fun hk => hne (hk ▸ rfl)
      simp [setKey, lookupKey, this]
    · by_cases h' : hd.1 = k'
      · simp [setKey, h, lookupKey, h', hne]
      · simp [setKey, h, lookupKey, h', ih]

/-! ### User (src/data/models/user.py) -/

/-- `User` restricted to the fields the verified claims mention; the
preference sub-record and the remaining metadata strings carry no logic the
claims depend on. -/
structure User where
  discord_id : Int
  osrs_username : Option String
  total_competitions : Int
  wins : Int
  achievements : List String
  last_activity : String
  deriving Repr, DecidableEq

/-- The numeric integrity checks of `User.validate` (`discord_id > 0`,
`total_competitions ≥ 0`, `wins ≥ 0`, `wins ≤ total_competitions`).  The
username-grammar and timestamp-format checks of `validate` constrain fields
no verified claim reads. -/
def User.validate (u : User) : Prop :=
  0 < u.discord_id ∧ 0 ≤ u.total_competitions ∧ 0 ≤ u.wins ∧
    u.wins ≤ u.total_competitions

instance (u : User) : Decidable u.validate := by
  unfold User.validate; infer_instance

/-- `User.add_competition_participation`: bump the participation counter,
bump wins when `won`, stamp activity. -/
def User.add_competition_participation (u : User) (won : Bool) (now : String) :
    User :=
  { u with
    total_competitions := u.total_competitions + 1
    wins := if won then u.wins + 1 else u.wins
    last_activity := now }

/-- `User.get_win_rate`. -/
def User.get_win_rate (u : User) : Rat :=
  if u.total_competitions = 0 then 0
  else ((u.wins : Rat) / (u.total_competitions : Rat)) * 100

/-- Fold a whole sequence of `add_competition_participation` calls. -/
def User.recordAll (u : User) (results : List Bool) (now : String) : User :=
  results.foldl (fun v won => v.add_competition_participation won now) u

theorem recordAll_counters (u : User) (now : String) :
    ∀ results : List Bool,
      (u.recordAll results now).total_competitions =
          u.total_competitions + results.length ∧
        (u.recordAll results now).wins =
          u.wins + ((results.filter (· = true)).length : Int) := by
  intro results
  induction results generalizing u with
  | nil => simp [User.recordAll]
  | cons hd tl ih =>
    have h := ih (u.add_competition_participation hd now)
    simp only [User.recordAll, List.foldl_cons] at h ⊢
    rcases h with ⟨h1, h2⟩
    refine ⟨?_, ?_⟩
    · rw [h1]; simp [User.add_competition_participation]; ring
    · rw [h2]
      cases hd
      all_goals simp [User.add_competition_participation, List.filter]
      all_goals ring

theorem recordAll_validate (u : User) (now : String) (hu : u.validate) :
    ∀ results : List Bool, (u.recordAll results now).validate := by
  intro results
  induction results generalizing u with
  | nil => simpa [User.recordAll] using hu
  | cons hd tl ih =>
    have step : (u.add_competition_participation hd now).validate := by
      obtain ⟨h1, h2, h3, h4⟩ := hu
      cases hd <;>
        (simp only [User.validate, User.add_competition_participation]; omega)
    simpa [User.recordAll] using ih _ step

/-! ### Rate limiter (src/utils/rate_limiter.py) -/

/-- `RateLimitBucket`.  `last_refill` is not stored: the elapsed wall-clock
time `now - last_refill` is instead passed to each operation explicitly. -/
structure RateLimitBucket where
  capacity : Rat
  refill_rate : Rat
  tokens : Rat
  deriving Repr, DecidableEq

namespace RateLimitBucket

/-- `__post_init__`: a freshly constructed bucket starts at full capacity. -/
def mk' (capacity refill_rate : Rat) : RateLimitBucket :=
  { capacity := capacity, refill_rate := refill_rate, tokens := capacity }

/-- `_refill`, with `elapsed = now - last_refill` made explicit. -/
def refill (b : RateLimitBucket) (elapsed : Rat) : RateLimitBucket :=
  { b with tokens := min b.capacity (b.tokens + elapsed * b.refill_rate) }

/-- `consume`: refill lazily, deduct iff enough tokens are available. -/
def consume (b : RateLimitBucket) (elapsed : Rat) (n : Int) :
    Bool × RateLimitBucket :=
  let b' := b.refill elapsed
  if (n : Rat) ≤ b'.tokens then (true, { b' with tokens := b'.tokens - n })
  else (false, b')

/-- `time_until_available`. -/
def time_until_available (b : RateLimitBucket) (elapsed : Rat) (n : Int) :
    Rat × RateLimitBucket :=
  let b' := b.refill elapsed
  if (n : Rat) ≤ b'.tokens then (0, b')
  else (((n : Rat) - b'.tokens) / b.refill_rate, b')

/-- `get_remaining_tokens`. -/
def get_remaining_tokens (b : RateLimitBucket) (elapsed : Rat) :
    Rat × RateLimitBucket :=
  let b' := b.refill elapsed
  (b'.tokens, b')

end RateLimitBucket

/-- One externally observable call on a bucket, tagged with the wall-clock
time elapsed since the bucket's `last_refill`. -/
inductive BucketOp where
  | consume (elapsed : Rat) (n : Int)
  | timeUntilAvailable (elapsed : Rat) (n : Int)
  | getRemainingTokens (elapsed : Rat)
  deriving Repr

/-- An op is well-formed when the wall clock has not gone backwards since the
last refill and the requested token count is non-negative. -/
def BucketOp.wf : BucketOp → Prop
  | .consume e n => 0 ≤ e ∧ 0 ≤ n
  | .timeUntilAvailable e n => 0 ≤ e ∧ 0 ≤ n
  | .getRemainingTokens e => 0 ≤ e

instance (op : BucketOp) : Decidable op.wf := by
  cases op <;> (unfold BucketOp.wf; infer_instance)

def BucketOp.apply (b : RateLimitBucket) : BucketOp → RateLimitBucket
  | .consume e n => (b.consume e n).2
  | .timeUntilAvailable e n => (b.time_until_available e n).2
  | .getRemainingTokens e => (b.get_remaining_tokens e).2

def runBucketOps (b : RateLimitBucket) (ops : List BucketOp) : RateLimitBucket :=
  ops.foldl BucketOp.apply b

theorem bucketOp_apply_bounds (b : RateLimitBucket) (op : BucketOp)
    (hcap : 0 ≤ b.capacity) (hrate : 0 ≤ b.refill_rate)
    (htok : 0 ≤ b.tokens ∧ b.tokens ≤ b.capacity) (hop : op.wf) :
    (0 ≤ (op.apply b).tokens ∧ (op.apply b).tokens ≤ (op.apply b).capacity) ∧
      (op.apply b).capacity = b.capacity ∧
      (op.apply b).refill_rate = b.refill_rate := by
  obtain ⟨htok0, htokc⟩ := htok
  cases op with
  | consume e n =>
    obtain ⟨he, hn⟩ := hop
    have hre : (0 : Rat) ≤ b.tokens + e * b.refill_rate :=
      add_nonneg htok0 (mul_nonneg he hrate)
    have hmin0 : (0 : Rat) ≤ min b.capacity (b.tokens + e * b.refill_rate) :=
      le_min hcap hre
    have hminc : min b.capacity (b.tokens + e * b.refill_rate) ≤ b.capacity :=
      min_le_left _ _
    have hn' : (0 : Rat) ≤ (n : Rat) := by exact_mod_cast hn
    simp only [BucketOp.apply, RateLimitBucket.consume, RateLimitBucket.refill]
    by_cases h : (n : Rat) ≤ min b.capacity (b.tokens + e * b.refill_rate)
    · simp only [h, if_true]
      exact ⟨⟨by linarith, by linarith⟩, by trivial, by trivial⟩
    · simp only [h, if_false]
      exact ⟨⟨hmin0, hminc⟩, by trivial, by trivial⟩
  | timeUntilAvailable e n =>
    obtain ⟨he, _⟩ := hop
    have hre : (0 : Rat) ≤ b.tokens + e * b.refill_rate :=
      add_nonneg htok0 (mul_nonneg he hrate)
    have hmin0 : (0 : Rat) ≤ min b.capacity (b.tokens + e * b.refill_rate) :=
      le_min hcap hre
    have hminc : min b.capacity (b.tokens + e * b.refill_rate) ≤ b.capacity :=
      min_le_left _ _
    simp only [BucketOp.apply, RateLimitBucket.time_until_available,
      RateLimitBucket.refill]
    by_cases h : (n : Rat) ≤ min b.capacity (b.tokens + e * b.refill_rate) <;>
      simp only [h, if_true, if_false] <;>
      exact ⟨⟨hmin0, hminc⟩, by trivial, by trivial⟩
  | getRemainingTokens e =>
    have hre : (0 : Rat) ≤ b.tokens + e * b.refill_rate :=
      add_nonneg htok0 (mul_nonneg hop hrate)
    simp only [BucketOp.apply, RateLimitBucket.get_remaining_tokens,
      RateLimitBucket.refill]
    exact ⟨⟨le_min hcap hre, min_le_left _ _⟩, by trivial, by trivial⟩

/-! ### Claim C1 -/

/-- C1: starting from a valid user, any sequence of
`add_competition_participation(won)` calls keeps `wins ≤ total_competitions`;
each call bumps `total_competitions` by 1 and `wins` by 1 exactly when `won`;
and `get_win_rate` is `0` when `total_competitions = 0` and
`wins / total_competitions * 100` otherwise. -/
theorem claim_C1 (u : User) (now : String) (results : List Bool)
    (hu : u.validate) :
    (∀ v : User, ∀ won : Bool,
        (v.add_competition_participation won now).total_competitions =
            v.total_competitions + 1 ∧
          (v.add_competition_participation won now).wins =
            v.wins + (if won then 1 else 0)) ∧
      (u.recordAll results now).wins ≤
        (u.recordAll results now).total_competitions ∧
      (u.recordAll results now).validate ∧
      ((u.recordAll results now).total_competitions = 0 →
        (u.recordAll results now).get_win_rate = 0) ∧
      ((u.recordAll results now).total_competitions ≠ 0 →
        (u.recordAll results now).get_win_rate =
          ((u.recordAll results now).wins : Rat) /
              ((u.recordAll results now).total_competitions : Rat) * 100) := by
  have hv := recordAll_validate u now hu results
  refine ⟨?_, hv.2.2.2, hv, ?_, ?_⟩
  · intro v won
    cases won <;> simp [User.add_competition_participation]
  · intro h0
    simp [User.get_win_rate, h0]
  · intro h0
    simp [User.get_win_rate, h0]

/-- A concrete fresh user used to instantiate claim C1. -/
def sampleUser : User :=
  { discord_id := 7, osrs_username := none, total_competitions := 0,
    wins := 0, achievements := [], last_activity := "t0" }

theorem claim_C1_witness :
    sampleUser.validate ∧
      (sampleUser.recordAll [false, true] "t1").wins ≤
        (sampleUser.recordAll [false, true] "t1").total_competitions :=
  ⟨by decide, (claim_C1 sampleUser "t1" [false, true] (by decide)).2.1⟩

/-! ### Claims C7 and C10 -/

/-- C7: every bucket operation first refills
`tokens := min capacity (tokens + elapsed * refill_rate)`; `consume n`
succeeds and deducts `n` exactly when the refilled token count is at least
`n`, leaving the count unchanged otherwise; and `time_until_available n`
returns `max 0 ((n - tokens) / refill_rate)` computed on the refilled
count. -/
theorem claim_C7 (b : RateLimitBucket) (elapsed : Rat) (n : Int)
    (hrate : 0 < b.refill_rate) :
    (b.refill elapsed).tokens =
        min b.capacity (b.tokens + elapsed * b.refill_rate) ∧
      ((b.consume elapsed n).1 = true ↔
        (n : Rat) ≤ (b.refill elapsed).tokens) ∧
      ((b.consume elapsed n).1 = true →
        (b.consume elapsed n).2.tokens = (b.refill elapsed).tokens - n) ∧
      ((b.consume elapsed n).1 = false →
        (b.consume elapsed n).2.tokens = (b.refill elapsed).tokens) ∧
      (b.time_until_available elapsed n).1 =
        max 0 (((n : Rat) - (b.refill elapsed).tokens) / b.refill_rate) := by
  refine ⟨rfl, ?_, ?_, ?_, ?_⟩
  · by_cases h : (n : Rat) ≤ (b.refill elapsed).tokens <;>
      simp [RateLimitBucket.consume, h]
  · intro hc
    by_cases h : (n : Rat) ≤ (b.refill elapsed).tokens
    · simp [RateLimitBucket.consume, h]
    · simp [RateLimitBucket.consume, h] at hc
  · intro hc
    by_cases h : (n : Rat) ≤ (b.refill elapsed).tokens
    · simp [RateLimitBucket.consume, h] at hc
    · simp [RateLimitBucket.consume, h]
  · by_cases h : (n : Rat) ≤ (b.refill elapsed).tokens
    · have hnum : ((n : Rat) - (b.refill elapsed).tokens) / b.refill_rate ≤ 0 :=
        div_nonpos_of_nonpos_of_nonneg (by linarith) (le_of_lt hrate)
      simp only [RateLimitBucket.time_until_available, h, if_true]
      exact (max_eq_left hnum).symm
    · have hnum : 0 ≤ ((n : Rat) - (b.refill elapsed).tokens) / b.refill_rate :=
        div_nonneg (by linarith [lt_of_not_le h]) (le_of_lt hrate)
      simp only [RateLimitBucket.time_until_available, h, if_false]
      exact (max_eq_right hnum).symm

theorem claim_C7_witness :
    (0 : Rat) < (RateLimitBucket.mk' 5 1).refill_rate ∧
      ((RateLimitBucket.mk' 5 1).time_until_available 0 7).1 =
        max 0 (((7 : Int) : Rat) -
            ((RateLimitBucket.mk' 5 1).refill 0).tokens) / (RateLimitBucket.mk' 5 1).refill_rate :=
  ⟨by norm_num [RateLimitBucket.mk'],
    by
      have h := (claim_C7 (RateLimitBucket.mk' 5 1) 0 7
        (by norm_num [RateLimitBucket.mk'])).2.2.2.2
      rw [h]
      norm_num [RateLimitBucket.mk', RateLimitBucket.refill]⟩

/-- C10: from a fresh bucket (which starts at full capacity), any sequence of
well-formed `consume` / `time_until_available` / `get_remaining_tokens` calls
keeps the token count inside `[0, capacity]`. -/
theorem claim_C10 (capacity refill_rate : Rat) (ops : List BucketOp)
    (hcap : 0 ≤ capacity) (hrate : 0 ≤ refill_rate)
    (hops : ∀ op ∈ ops, op.wf) :
    (RateLimitBucket.mk' capacity refill_rate).tokens = capacity ∧
      0 ≤ (runBucketOps (RateLimitBucket.mk' capacity refill_rate) ops).tokens ∧
      (runBucketOps (RateLimitBucket.mk' capacity refill_rate) ops).tokens ≤
        capacity := by
  refine ⟨rfl, ?_⟩
  have main : ∀ (l : List BucketOp) (b : RateLimitBucket),
      b.capacity = capacity → b.refill_rate = refill_rate →
      0 ≤ b.tokens → b.tokens ≤ b.capacity → (∀ op ∈ l, op.wf) →
      0 ≤ (runBucketOps b l).tokens ∧
        (runBucketOps b l).tokens ≤ capacity := by
    intro l
    induction l with
    | nil =>
      intro b hc hr h0 h1 _
      exact ⟨h0, by simpa [runBucketOps, hc] using h1⟩
    | cons op rest ih =>
      intro b hc hr h0 h1 hl
      have hb := bucketOp_apply_bounds b op (hc ▸ hcap) (hr ▸ hrate)
        ⟨h0, h1⟩ (hl op (by simp))
      have := ih (op.apply b) (hb.2.1.trans hc) (hb.2.2.trans hr)
        hb.1.1 (hb.1.2) (fun o ho => hl o (by simp [ho]))
      simpa [runBucketOps] using this
  exact main ops (RateLimitBucket.mk' capacity refill_rate) rfl rfl
    (by simpa [RateLimitBucket.mk'] using hcap)
    (le_of_eq rfl) hops

theorem claim_C10_witness :
    ((0 : Rat) ≤ 5 ∧ (0 : Rat) ≤ 1 ∧
        (∀ op ∈ [BucketOp.consume 0 2, BucketOp.getRemainingTokens 3], op.wf)) ∧
      0 ≤ (runBucketOps (RateLimitBucket.mk' 5 1)
            [BucketOp.consume 0 2, BucketOp.getRemainingTokens 3]).tokens ∧
        (runBucketOps (RateLimitBucket.mk' 5 1)
            [BucketOp.consume 0 2, BucketOp.getRemainingTokens 3]).tokens ≤ 5 :=
  ⟨⟨by norm_num, by norm_num, by decide⟩,
    (claim_C10 5 1 [BucketOp.consume 0 2, BucketOp.getRemainingTokens 3]
        (by norm_num) (by norm_num) (by decide)).2⟩

/-! ### Competition (src/data/models/competition.py) -/

inductive CompetitionStatus where
  | pending
  | active
  | completed
  | cancelled
  | paused
  deriving Repr, DecidableEq

inductive CompetitionType where
  | skill_competition
  | boss_competition
  | trivia
  | race
  | speedrun
  deriving Repr, DecidableEq

/-- Free-form JSON-ish maps (`starting_stats`, `current_progress`, …): the
claims never look inside them, so values are abstracted to strings. -/
abbrev JsonMap := List (String × String)

/-- `ParticipantData`. -/
structure ParticipantData where
  user_id : Int
  registration_time : String
  starting_stats : JsonMap
  current_progress : JsonMap
  final_result : Option JsonMap
  notes : String
  deriving Repr, DecidableEq

/-- `CompetitionMetadata` restricted to the fields the claims read. -/
structure CompetitionMetadata where
  participant_count : Int
  completion_rate : Rat
  created_version : String
  tags : List String
  deriving Repr, DecidableEq

/-- `Competition`.  The participants dict (`str(user_id) → ParticipantData`)
is embedded as an insertion-ordered association list keyed by the integer
user id (see the header note). -/
structure Competition where
  id : String
  type : CompetitionType
  title : String
  description : String
  status : CompetitionStatus
  created_by : Int
  created_at : String
  start_time : String
  end_time : String
  max_participants : Int
  participants : List (Int × ParticipantData)
  winners : List Int
  metadata : CompetitionMetadata
  cancellation_reason : Option String
  cancelled_at : Option String
  deriving Repr, DecidableEq

/-- The distinct raise sites of `Competition.add_participant`: the three
`CompetitionError` messages, plus the `ValidationError` that
`ParticipantData.__post_init__` raises for a non-positive user id. -/
inductive CompetitionErr where
  | duplicateRegistration
  | competitionFull
  | registrationClosed
  | participantIdNotPositive
  deriving Repr, DecidableEq

namespace Competition

/-- `Competition.add_participant`.  Mutating methods that can raise return
`(some error, state at the raise site)`; every raise in the source happens
before any field is mutated, so the state component is the input state on
every error path. -/
def add_participant (c : Competition) (user_id : Int) (now : String)
    (starting_stats : Option JsonMap) : Option CompetitionErr × Competition :=
  if (lookupKey user_id c.participants).isSome then
    (some .duplicateRegistration, c)
  else if c.max_participants ≤ (c.participants.length : Int) then
    (some .competitionFull, c)
  else if ¬(c.status = .pending ∨ c.status = .active) then
    (some .registrationClosed, c)
  else if user_id ≤ 0 then
    -- ParticipantData.validate, run by its __post_init__
    (some .participantIdNotPositive, c)
  else
    let p : ParticipantData :=
      { user_id := user_id, registration_time := now,
        starting_stats := starting_stats.getD [], current_progress := [],
        final_result := none, notes := "" }
    let parts := c.participants ++ [(user_id, p)]
    (none,
      { c with
        participants := parts
        metadata := { c.metadata with participant_count := (parts.length : Int) } })

/-- `Competition.remove_participant`. -/
def remove_participant (c : Competition) (user_id : Int) :
    Bool × Competition :=
  if (lookupKey user_id c.participants).isSome then
    let parts := eraseKey user_id c.participants
    (true,
      { c with
        participants := parts
        metadata := { c.metadata with participant_count := (parts.length : Int) }
        winners := c.winners.erase user_id })
  else
    (false, c)

/-- `Competition.cancel`: unconditionally stamps cancelled status, reason and
cancellation time (the source has no status guard). -/
def cancel (c : Competition) (reason : String) (now : String) : Competition :=
  { c with
    status := .cancelled
    cancellation_reason := some reason
    cancelled_at := some now }

end Competition

/-- `BaseCompetitionManager.cancel_competition`, restricted to its effect on
the competition document itself (the persistence write and the in-memory
active-set bookkeeping carry no claim-relevant state): it too stamps
cancelled status, reason and cancellation time with no status guard. -/
def cancel_competition (c : Competition) (reason : String) (now : String) :
    Competition :=
  { c with
    status := .cancelled
    cancellation_reason := some reason
    cancelled_at := some now }

theorem lookupKey_append {β : Type} (k : Int) :
    ∀ l l' : List (Int × β),
      lookupKey k (l ++ l') =
        match lookupKey k l with
        | some v => some v
        | none => lookupKey k l' := by
  intro l l'
  induction l with
  | nil => simp [lookupKey]
  | cons hd tl ih =>
    by_cases h : hd.1 = k <;> simp [lookupKey, h, ih]

theorem lookupKey_isSome_iff {β : Type} (k : Int) :
    ∀ l : List (Int × β), (lookupKey k l).isSome ↔ k ∈ l.map Prod.fst := by
  intro l
  induction l with
  | nil => simp [lookupKey]
  | cons hd tl ih =>
    by_cases h : hd.1 = k
    · simp [lookupKey, h]
    · have h' : ¬(k = hd.1) := fun he => h he.symm
      simp [lookupKey, h, h', ih]

theorem lookupKey_eraseKey_none {β : Type} (j k : Int) :
    ∀ l : List (Int × β),
      lookupKey j l = none → lookupKey j (eraseKey k l) = none := by
  intro l
  induction l with
  | nil => simp [eraseKey]
  | cons hd tl ih =>
    intro h
    by_cases hj : hd.1 = j
    · simp [lookupKey, hj] at h
    · simp only [lookupKey, hj, if_false] at h
      by_cases hk : hd.1 = k
      · simpa [eraseKey, hk] using h
      · simp [eraseKey, hk, lookupKey, hj, ih h]

theorem length_eraseKey_of_isSome {β : Type} (k : Int) :
    ∀ l : List (Int × β),
      (lookupKey k l).isSome → (eraseKey k l).length + 1 = l.length := by
  intro l
  induction l with
  | nil => simp [lookupKey]
  | cons hd tl ih =>
    intro h
    by_cases hk : hd.1 = k
    · simp [eraseKey, hk]
    · simp only [lookupKey, hk, if_false] at h
      simp [eraseKey, hk, ← ih h]

/-! ### Claim C2 -/

/-- A concrete competition that has already completed. -/
def completedCompetition : Competition :=
  { id := "skill_mining_1"
    type := .skill_competition
    title := "Mining Marathon"
    description := "Gain the most mining experience"
    status := .completed
    created_by := 1
    created_at := "2024-01-01T00:00:00Z"
    start_time := "2024-01-01T00:05:00Z"
    end_time := "2024-01-02T00:05:00Z"
    max_participants := 50
    participants := []
    winners := []
    metadata := { participant_count := 0, completion_rate := 0,
                  created_version := "1.0", tags := [] }
    cancellation_reason := none
    cancelled_at := none }

/-- C2 counterexample: a competition whose status is `completed` does become
`cancelled` through `Competition.cancel` and through the manager's
`cancel_competition`, contradicting the claim that these operations
transition to cancelled only from `pending` or `active`. -/
theorem claim_C2_counterexample :
    completedCompetition.status = .completed ∧
      (completedCompetition.cancel "Cancelled by administrator"
          "2024-01-03T00:00:00Z").status = .cancelled ∧
      (cancel_competition completedCompetition "Cancelled by administrator"
          "2024-01-03T00:00:00Z").status = .cancelled :=
  ⟨rfl, rfl, rfl⟩

/-- C2 amended: both cancellation operations stamp `cancelled` status, the
reason and the cancellation time unconditionally — from every prior status,
including `completed` and `cancelled`; neither operation has a status
guard. -/
theorem claim_C2 (c : Competition) (reason now : String) :
    (c.cancel reason now).status = .cancelled ∧
      (c.cancel reason now).cancellation_reason = some reason ∧
      (c.cancel reason now).cancelled_at = some now ∧
      (cancel_competition c reason now).status = .cancelled ∧
      (cancel_competition c reason now).cancellation_reason = some reason ∧
      (cancel_competition c reason now).cancelled_at = some now :=
  ⟨rfl, rfl, rfl, rfl, rfl, rfl⟩

/-! ### Claim C9 -/

/-- C9: whenever `add_participant` reports an error, the competition is
unchanged — participants, winners, status and the participant-count metadata
mirror all keep their previous values (every raise in the source precedes
every mutation). -/
theorem claim_C9 (c : Competition) (user_id : Int) (now : String)
    (stats : Option JsonMap) (e : CompetitionErr) (c' : Competition)
    (h : c.add_participant user_id now stats = (some e, c')) :
    c'.participants = c.participants ∧ c'.winners = c.winners ∧
      c'.status = c.status ∧
      c'.metadata.participant_count = c.metadata.participant_count := by
  unfold Competition.add_participant at h
  split_ifs at h with h1 h2 h3 h4
  all_goals first
    | (injection h with ha hb; subst hb; exact ⟨rfl, rfl, rfl, rfl⟩)
    | (injection h with ha hb; exact absurd ha (by simp))

theorem claim_C9_witness :
    completedCompetition.add_participant 5 "2024-01-01T00:06:00Z" none =
        (some .registrationClosed, completedCompetition) ∧
      completedCompetition.participants = completedCompetition.participants ∧
        completedCompetition.winners = completedCompetition.winners ∧
        completedCompetition.status = completedCompetition.status ∧
        completedCompetition.metadata.participant_count =
          completedCompetition.metadata.participant_count :=
  ⟨by decide,
    claim_C9 completedCompetition 5 "2024-01-01T00:06:00Z" none
      .registrationClosed completedCompetition (by decide)⟩

/-! ### Claim C3 -/

/-- Run a sequence of `add_participant` calls, collecting each call's
outcome. -/
def addAll (c : Competition) (ids : List Int) (now : String) :
    List (Option CompetitionErr) × Competition :=
  match ids with
  | [] => ([], c)
  | i :: rest =>
    let r := c.add_participant i now none
    let rs := addAll r.2 rest now
    (r.1 :: rs.1, rs.2)

theorem add_participant_success (c : Competition) (u : Int) (now : String)
    (stats : Option JsonMap)
    (hfresh : lookupKey u c.participants = none)
    (hroom : ¬ (c.max_participants ≤ (c.participants.length : Int)))
    (hstatus : c.status = .pending ∨ c.status = .active)
    (hupos : 0 < u) :
    (c.add_participant u now stats).1 = none ∧
      (c.add_participant u now stats).2.participants =
        c.participants ++ [(u, ⟨u, now, stats.getD [], [], none, ""⟩)] ∧
      (c.add_participant u now stats).2.status = c.status ∧
      (c.add_participant u now stats).2.max_participants =
        c.max_participants ∧
      (c.add_participant u now stats).2.winners = c.winners ∧
      (c.add_participant u now stats).2.metadata.participant_count =
        ((c.add_participant u now stats).2.participants.length : Int) := by
  have hcond : ¬¬(c.status = .pending ∨ c.status = .active) :=
    not_not_intro hstatus
  have hipos : ¬ u ≤ 0 := by omega
  refine ⟨?_, ?_, ?_, ?_, ?_, ?_⟩ <;>
    (unfold Competition.add_participant
     rw [hfresh]
     simp only [Option.isSome_none, Bool.false_eq_true, if_false]
     rw [if_neg hroom, if_neg hcond, if_neg hipos])

theorem add_participant_duplicate (c : Competition) (u : Int) (now : String)
    (stats : Option JsonMap)
    (hdup : (lookupKey u c.participants).isSome = true) :
    c.add_participant u now stats = (some .duplicateRegistration, c) := by
  unfold Competition.add_participant
  rw [if_pos hdup]

theorem add_participant_full (c : Competition) (u : Int) (now : String)
    (stats : Option JsonMap)
    (hfresh : lookupKey u c.participants = none)
    (hfull : c.max_participants ≤ (c.participants.length : Int)) :
    c.add_participant u now stats = (some .competitionFull, c) := by
  unfold Competition.add_participant
  rw [hfresh]
  simp only [Option.isSome_none, Bool.false_eq_true, if_false]
  rw [if_pos hfull]

theorem add_participant_closed (c : Competition) (u : Int) (now : String)
    (stats : Option JsonMap)
    (hfresh : lookupKey u c.participants = none)
    (hroom : ¬ (c.max_participants ≤ (c.participants.length : Int)))
    (hbad : ¬(c.status = .pending ∨ c.status = .active)) :
    c.add_participant u now stats = (some .registrationClosed, c) := by
  unfold Competition.add_participant
  rw [hfresh]
  simp only [Option.isSome_none, Bool.false_eq_true, if_false]
  rw [if_neg hroom, if_pos hbad]

theorem remove_participant_found (c : Competition) (u : Int)
    (hin : (lookupKey u c.participants).isSome = true) :
    (c.remove_participant u).1 = true ∧
      (c.remove_participant u).2.participants = eraseKey u c.participants ∧
      (c.remove_participant u).2.status = c.status ∧
      (c.remove_participant u).2.max_participants = c.max_participants ∧
      (c.remove_participant u).2.metadata.participant_count =
        ((eraseKey u c.participants).length : Int) := by
  refine ⟨?_, ?_, ?_, ?_, ?_⟩ <;>
    (unfold Competition.remove_participant
     rw [if_pos hin])

theorem addAll_ok :
    ∀ (ids : List Int) (c : Competition) (now : String),
      (c.status = .pending ∨ c.status = .active) →
      ids.Nodup → (∀ i ∈ ids, 0 < i) →
      (∀ i ∈ ids, lookupKey i c.participants = none) →
      (c.participants.length : Int) + ids.length ≤ c.max_participants →
      c.metadata.participant_count = (c.participants.length : Int) →
      (addAll c ids now).1 = List.replicate ids.length none ∧
        (addAll c ids now).2.participants.map Prod.fst =
          c.participants.map Prod.fst ++ ids ∧
        (addAll c ids now).2.status = c.status ∧
        (addAll c ids now).2.max_participants = c.max_participants ∧
        (addAll c ids now).2.winners = c.winners ∧
        (addAll c ids now).2.metadata.participant_count =
          ((addAll c ids now).2.participants.length : Int) := by
  intro ids
  induction ids with
  | nil =>
    intro c now _ _ _ _ _ hpc
    exact ⟨rfl, by simp [addAll], rfl, rfl, rfl, by simpa [addAll] using hpc⟩
  | cons i rest ih =>
    intro c now hstatus hnodup hpos hfresh hlen hpc
    have hfresh_i : lookupKey i c.participants = none := hfresh i (by simp)
    have hpos_i : 0 < i := hpos i (by simp)
    have hroom : ¬ (c.max_participants ≤ (c.participants.length : Int)) := by
      simp only [List.length_cons] at hlen
      push_cast at hlen ⊢
      omega
    obtain ⟨hstep1, hstep2, hstep3, hstep4, hstep5, hstep6⟩ :=
      add_participant_success c i now none hfresh_i hroom hstatus hpos_i
    have hout1 : (addAll c (i :: rest) now).1 =
        (c.add_participant i now none).1 ::
          (addAll (c.add_participant i now none).2 rest now).1 := rfl
    have hout2 : (addAll c (i :: rest) now).2 =
        (addAll (c.add_participant i now none).2 rest now).2 := rfl
    have hrest := ih (c.add_participant i now none).2 now
      (by rw [hstep3]; exact hstatus)
      (hnodup.of_cons)
      (fun j hj => hpos j (by simp [hj]))
      (fun j hj => by
        have hne : j ≠ i := by
          rintro rfl
          exact (List.nodup_cons.mp hnodup).1 hj
        rw [hstep2, lookupKey_append, hfresh j (by simp [hj])]
        simp [lookupKey, hne.symm])
      (by
        rw [hstep2, hstep4]
        simp only [List.length_append, List.length_cons, List.length_nil,
          List.length_singleton] at hlen ⊢
        push_cast at hlen ⊢
        omega)
      hstep6
    obtain ⟨hr1, hr2, hr3, hr4, hr5, hr6⟩ := hrest
    refine ⟨?_, ?_, ?_, ?_, ?_, ?_⟩
    · rw [hout1, hstep1, hr1]
      simp [List.replicate_succ]
    · rw [hout2, hr2, hstep2]
      simp
    · rw [hout2, hr3, hstep3]
    · rw [hout2, hr4, hstep4]
    · rw [hout2, hr5, hstep5]
    · rw [hout2]
      exact hr6

/-- C3: on a pending/active competition with `max_participants = |ids|` and
no participants yet, adding the distinct (positive) user ids in `ids`
succeeds `|ids|` times; one further fresh id `f` then fails with the
full-competition error; adding an id that is already registered fails with
the duplicate-registration error; a fresh id on a competition whose status
is neither pending nor active (with free capacity) fails with the
closed-competition error; after removing one participant, exactly one more
fresh add (`f`) succeeds — creating a `ParticipantData` stamped with the
current time and refreshing the participant-count metadata mirror — and the
next fresh add (`g`) fails full again. -/
theorem claim_C3 (c cm : Competition) (ids : List Int) (f g : Int)
    (now : String)
    (hstatus : c.status = .pending ∨ c.status = .active)
    (hempty : c.participants = [])
    (hpc : c.metadata.participant_count = 0)
    (hnodup : (ids ++ [f, g]).Nodup)
    (hpos : ∀ i ∈ ids ++ [f, g], 0 < i)
    (hmax : c.max_participants = (ids.length : Int))
    (hcm : cm = (addAll c ids now).2) :
    (addAll c ids now).1 = List.replicate ids.length none ∧
      cm.participants.length = ids.length ∧
      cm.metadata.participant_count = (ids.length : Int) ∧
      cm.add_participant f now none = (some .competitionFull, cm) ∧
      (∀ d ∈ ids,
        cm.add_participant d now none = (some .duplicateRegistration, cm)) ∧
      (∀ (c' : Competition) (u : Int),
        lookupKey u c'.participants = none →
        (c'.participants.length : Int) < c'.max_participants →
        ¬(c'.status = .pending ∨ c'.status = .active) →
        c'.add_participant u now none = (some .registrationClosed, c')) ∧
      (∀ d ∈ ids,
        (cm.remove_participant d).1 = true ∧
        ((cm.remove_participant d).2.add_participant f now none).1 = none ∧
        lookupKey f
            ((cm.remove_participant d).2.add_participant f now none).2.participants =
          some ⟨f, now, [], [], none, ""⟩ ∧
        ((cm.remove_participant d).2.add_participant f now none).2.metadata.participant_count =
          ((((cm.remove_participant d).2.add_participant f now none).2.participants.length : Int)) ∧
        (((cm.remove_participant d).2.add_participant f now none).2.add_participant g now none).1 =
          some .competitionFull) := by
  subst hcm
  -- facts about ids / f / g
  obtain ⟨hnd_ids, hnd_fg, hdisj⟩ := List.nodup_append.mp hnodup
  have hfg : f ≠ g := by simpa using (List.nodup_cons.mp hnd_fg).1
  have hf_not : f ∉ ids := fun hf => hdisj hf (by simp)
  have hg_not : g ∉ ids := fun hg => hdisj hg (by simp)
  have hfpos : 0 < f := hpos f (by simp)
  have hgpos : 0 < g := hpos g (by simp)
  -- run the m successful adds
  obtain ⟨hb1, hb2, hb3, hb4, hb5, hb6⟩ := addAll_ok ids c now hstatus hnd_ids
    (fun i hi => hpos i (by simp [hi]))
    (fun i _ => by rw [hempty]; rfl)
    (by rw [hempty, hmax]; simp)
    (by rw [hpc, hempty]; rfl)
  set cm := (addAll c ids now).2 with hcmdef
  have hkeys : cm.participants.map Prod.fst = ids := by
    rw [hb2, hempty]; rfl
  have hlen2 : cm.participants.length = ids.length := by
    have := congrArg List.length hkeys
    simpa using this
  have hf_none : lookupKey f cm.participants = none := by
    rw [← Option.not_isSome_iff_eq_none]
    intro h
    exact hf_not (hkeys ▸ (lookupKey_isSome_iff f _).mp (by simpa using h))
  have hg_none : lookupKey g cm.participants = none := by
    rw [← Option.not_isSome_iff_eq_none]
    intro h
    exact hg_not (hkeys ▸ (lookupKey_isSome_iff g _).mp (by simpa using h))
  have hfull_cond : cm.max_participants ≤ (cm.participants.length : Int) := by
    rw [hb4, hmax, hlen2]
  have hstat2 : cm.status = .pending ∨ cm.status = .active := by
    rw [hb3]; exact hstatus
  refine ⟨hb1, hlen2, by rw [hb6, hlen2], ?_, ?_, ?_, ?_⟩
  · exact add_participant_full cm f now none hf_none hfull_cond
  · intro d hd
    have hd_some : (lookupKey d cm.participants).isSome = true :=
      (lookupKey_isSome_iff d _).mpr (by rw [hkeys]; exact hd)
    exact add_participant_duplicate cm d now none hd_some
  · intro c' u hfreshu hroomu hbadu
    exact add_participant_closed c' u now none hfreshu (not_le.mpr hroomu) hbadu
  · intro d hd
    have hd_some : (lookupKey d cm.participants).isSome = true :=
      (lookupKey_isSome_iff d _).mpr (by rw [hkeys]; exact hd)
    obtain ⟨hrm1, hrm2, hrm3, hrm4, hrm5⟩ :=
      remove_participant_found cm d hd_some
    have hrm_len : (cm.remove_participant d).2.participants.length + 1 =
        ids.length := by
      rw [hrm2, length_eraseKey_of_isSome d _ hd_some, hlen2]
    have hrm_fresh_f :
        lookupKey f (cm.remove_participant d).2.participants = none := by
      rw [hrm2]; exact lookupKey_eraseKey_none f d _ hf_none
    have hrm_fresh_g :
        lookupKey g (cm.remove_participant d).2.participants = none := by
      rw [hrm2]; exact lookupKey_eraseKey_none g d _ hg_none
    have hids_pos : 0 < ids.length := List.length_pos.mpr (by
      rintro rfl; exact (List.not_mem_nil d) hd)
    have hrm_room :
        ¬ ((cm.remove_participant d).2.max_participants ≤
          ((cm.remove_participant d).2.participants.length : Int)) := by
      rw [hrm4, hb4, hmax]
      omega
    have hrm_status : (cm.remove_participant d).2.status = .pending ∨
        (cm.remove_participant d).2.status = .active := by
      rw [hrm3]; exact hstat2
    obtain ⟨ha1, ha2, ha3, ha4, ha5, ha6⟩ :=
      add_participant_success (cm.remove_participant d).2 f now none
        hrm_fresh_f hrm_room hrm_status hfpos
    have hcrf_lookup_f :
        lookupKey f
            ((cm.remove_participant d).2.add_participant f now none).2.participants =
          some ⟨f, now, [], [], none, ""⟩ := by
      rw [ha2, lookupKey_append, hrm_fresh_f]
      simp [lookupKey]
    have hcrf_fresh_g :
        lookupKey g
            ((cm.remove_participant d).2.add_participant f now none).2.participants =
          none := by
      rw [ha2, lookupKey_append, hrm_fresh_g]
      simp [lookupKey, hfg]
    have hcrf_len :
        (((cm.remove_participant d).2.add_participant f now none).2.participants.length : Int) =
          (ids.length : Int) := by
      rw [ha2]
      simp only [List.length_append, List.length_cons, List.length_nil]
      omega
    have hcrf_full :
        ((cm.remove_participant d).2.add_participant f now none).2.max_participants ≤
          (((cm.remove_participant d).2.add_participant f now none).2.participants.length : Int) := by
      rw [ha4, hrm4, hb4, hmax, hcrf_len]
    refine ⟨hrm1, ha1, hcrf_lookup_f, ha6, ?_⟩
    rw [add_participant_full _ g now none hcrf_fresh_g hcrf_full]

/-- A concrete pending competition with room for exactly two participants. -/
def c3Base : Competition :=
  { id := "boss_zulrah_1"
    type := .boss_competition
    title := "Zulrah Duel"
    description := "Most Zulrah kills wins"
    status := .pending
    created_by := 1
    created_at := "2024-02-01T00:00:00Z"
    start_time := "2024-02-01T00:05:00Z"
    end_time := "2024-02-02T00:05:00Z"
    max_participants := 2
    participants := []
    winners := []
    metadata := { participant_count := 0, completion_rate := 0,
                  created_version := "1.0", tags := [] }
    cancellation_reason := none
    cancelled_at := none }

theorem claim_C3_witness :
    ((c3Base.status = .pending ∨ c3Base.status = .active) ∧
        c3Base.participants = [] ∧
        c3Base.metadata.participant_count = 0 ∧
        (([1, 2] : List Int) ++ [3, 4]).Nodup ∧
        (∀ i ∈ ([1, 2] : List Int) ++ [3, 4], 0 < i) ∧
        c3Base.max_participants = ((([1, 2] : List Int).length : Int))) ∧
      ((addAll c3Base [1, 2] "t").1 =
          List.replicate ([1, 2] : List Int).length none ∧
        (addAll c3Base [1, 2] "t").2.participants.length =
          ([1, 2] : List Int).length ∧
        (addAll c3Base [1, 2] "t").2.metadata.participant_count =
          ((([1, 2] : List Int).length : Int)) ∧
        (addAll c3Base [1, 2] "t").2.add_participant 3 "t" none =
          (some .competitionFull, (addAll c3Base [1, 2] "t").2) ∧
        (∀ d ∈ ([1, 2] : List Int),
          (addAll c3Base [1, 2] "t").2.add_participant d "t" none =
            (some .duplicateRegistration, (addAll c3Base [1, 2] "t").2)) ∧
        (∀ (c' : Competition) (u : Int),
          lookupKey u c'.participants = none →
          (c'.participants.length : Int) < c'.max_participants →
          ¬(c'.status = .pending ∨ c'.status = .active) →
          c'.add_participant u "t" none = (some .registrationClosed, c')) ∧
        (∀ d ∈ ([1, 2] : List Int),
          ((addAll c3Base [1, 2] "t").2.remove_participant d).1 = true ∧
          (((addAll c3Base [1, 2] "t").2.remove_participant d).2.add_participant
              3 "t" none).1 = none ∧
          lookupKey 3
              (((addAll c3Base [1, 2] "t").2.remove_participant d).2.add_participant
                3 "t" none).2.participants =
            some ⟨3, "t", [], [], none, ""⟩ ∧
          (((addAll c3Base [1, 2] "t").2.remove_participant d).2.add_participant
              3 "t" none).2.metadata.participant_count =
            (((((addAll c3Base [1, 2] "t").2.remove_participant d).2.add_participant
                3 "t" none).2.participants.length : Int)) ∧
          ((((addAll c3Base [1, 2] "t").2.remove_participant d).2.add_participant
              3 "t" none).2.add_participant 4 "t" none).1 =
            some .competitionFull)) :=
  ⟨⟨Or.inl rfl, rfl, rfl, by decide, by decide, by decide⟩,
    claim_C3 c3Base ((addAll c3Base [1, 2] "t").2) [1, 2] 3 4 "t"
      (Or.inl rfl) rfl rfl (by decide) (by decide) (by decide) rfl⟩

/-! ### Leaderboard (src/data/models/leaderboard.py) -/

inductive LeaderboardType where
  | all_time_wins
  | monthly_wins
  | participation
  | win_rate
  | skill_competitions
  | boss_competitions
  | trivia_competitions
  | race_competitions
  | speedrun_competitions
  deriving Repr, DecidableEq

inductive AchievementType where
  | first_win
  | multiple_wins
  | participation_milestone
  | win_streak
  | competition_specific
  | seasonal
  | special
  deriving Repr, DecidableEq

/-- `LeaderboardEntry` (the free-form `additional_data` map carries no logic
any claim reads). -/
structure LeaderboardEntry where
  user_id : Int
  rank : Int
  score : Rat
  display_name : Option String
  deriving Repr, DecidableEq

/-- The raise sites of the leaderboard-side validators the claims reach. -/
inductive ValidationErr where
  | userIdNotPositive
  | rankNotPositive
  | emptyAchievementId
  deriving Repr, DecidableEq

/-- `LeaderboardEntry(...)` constructor followed by the `__post_init__`
validation (`user_id > 0`, then `rank > 0`; the score type check cannot fail
in this embedding). -/
def mkLeaderboardEntry (user_id rank : Int) (score : Rat)
    (display_name : Option String) : Except ValidationErr LeaderboardEntry :=
  if user_id ≤ 0 then .error .userIdNotPositive
  else if rank ≤ 0 then .error .rankNotPositive
  else .ok ⟨user_id, rank, score, display_name⟩

/-- `Achievement` (free-form `metadata` omitted; no claim reads it). -/
structure Achievement where
  achievement_type : AchievementType
  achievement_id : String
  earned_date : String
  competition_id : Option String
  deriving Repr, DecidableEq

/-- Python's `str.strip()` whitespace predicate. -/
def isPySpace (c : Char) : Bool :=
  (c = ' ') || (c = '\t') || (c = '\n') || (c = '\r') || (c = '\x0b') ||
    (c = '\x0c')

/-- Python's `str.strip()`: drop leading and trailing whitespace. -/
def pyStrip (s : String) : String :=
  String.mk (((s.data.dropWhile isPySpace).reverse.dropWhile isPySpace).reverse)

/-- `Achievement(...)` constructor followed by its `__post_init__`
validation: the achievement id must be non-blank.  (The `earned_date` format
check is not modelled: every call site stamps `utcnow().isoformat()+'Z'`,
which always parses.) -/
def mkAchievement (achievement_type : AchievementType)
    (achievement_id : String) (earned_date : String)
    (competition_id : Option String) : Except ValidationErr Achievement :=
  if (pyStrip achievement_id).length = 0 then .error .emptyAchievementId
  else .ok ⟨achievement_type, achievement_id, earned_date, competition_id⟩

structure Leaderboard where
  leaderboard_type : LeaderboardType
  entries : List LeaderboardEntry
  last_updated : String
  period_start : Option String
  period_end : Option String
  deriving Repr, DecidableEq

/-- The descending-score comparison `recalculate_ranks` sorts by. -/
def scoreDesc (a b : LeaderboardEntry) : Prop := b.score ≤ a.score

instance : DecidableRel scoreDesc := fun a b => by
  unfold scoreDesc; infer_instance

instance : IsTotal LeaderboardEntry scoreDesc :=
  ⟨fun a b => le_total b.score a.score⟩

instance : IsTrans LeaderboardEntry scoreDesc :=
  ⟨fun _ _ _ hab hbc => le_trans hbc hab⟩

/-- `sorted(entries, key=lambda x: x.score, reverse=True)`: Python's sort is
stable, and a stable sort under a fixed comparison has a unique result, so
any stable implementation embeds it; both branches of the `win_rate` `if` in
`recalculate_ranks` perform this same sort. -/
def sortDesc (l : List LeaderboardEntry) : List LeaderboardEntry :=
  List.insertionSort scoreDesc l

/-- The rank-assignment loop of `recalculate_ranks`: `pos` is the 1-based
position of the next entry, `prevRank`/`prevScore` describe the previous
entry. -/
def rankAux (prevScore : Rat) (prevRank pos : Int) :
    List LeaderboardEntry → List LeaderboardEntry
  | [] => []
  | e :: l =>
    let r := if e.score = prevScore then prevRank else pos
    { e with rank := r } :: rankAux e.score r (pos + 1) l

/-- Rank assignment over an already-sorted entry list: the first entry gets
rank 1; each later entry shares the previous rank on a score tie and gets
its 1-based position otherwise. -/
def assignRanks : List LeaderboardEntry → List LeaderboardEntry
  | [] => []
  | e :: l => { e with rank := 1 } :: rankAux e.score 1 2 l

/-- `Leaderboard.recalculate_ranks`. -/
def Leaderboard.recalculate_ranks (lb : Leaderboard) : Leaderboard :=
  { lb with entries := assignRanks (sortDesc lb.entries) }

/-- The update branch of `add_or_update_entry`: mutate the first entry with
the given user id (replacing the score, and the display name only when a
non-falsy one is supplied). -/
def updateEntry (user_id : Int) (score : Rat) (display_name : Option String) :
    List LeaderboardEntry → List LeaderboardEntry
  | [] => []
  | e :: l =>
    if e.user_id = user_id then
      { e with
        score := score
        display_name :=
          match display_name with
          | some d => if d = "" then e.display_name else some d
          | none => e.display_name } :: l
    else e :: updateEntry user_id score display_name l

/-- `Leaderboard.add_or_update_entry`. -/
def Leaderboard.add_or_update_entry (lb : Leaderboard) (user_id : Int)
    (score : Rat) (display_name : Option String) (now : String) :
    Except ValidationErr Leaderboard :=
  if lb.entries.any (fun e => e.user_id = user_id) then
    let lb' := { lb with entries := updateEntry user_id score display_name lb.entries }
    .ok { lb'.recalculate_ranks with last_updated := now }
  else
    -- new entries are constructed with the provisional rank 0, which the
    -- entry's own __post_init__ validation rejects
    match mkLeaderboardEntry user_id 0 score display_name with
    | .error e => .error e
    | .ok ne =>
      let lb' := { lb with entries := lb.entries ++ [ne] }
      .ok { lb'.recalculate_ranks with last_updated := now }

/-- The shape of the `get_statistics` result dict.  `median_score` is an
`Option` because the empty-leaderboard branch of the source returns a dict
without that key. -/
structure LeaderboardStats where
  total_entries : Nat
  average_score : Rat
  highest_score : Rat
  lowest_score : Rat
  median_score : Option Rat
  deriving Repr, DecidableEq

/-- Python `max` over a list (only ever applied to non-empty score lists). -/
def pyListMax : List Rat → Rat
  | [] => 0
  | x :: xs => xs.foldl max x

/-- Python `min` over a list (only ever applied to non-empty score lists). -/
def pyListMin : List Rat → Rat
  | [] => 0
  | x :: xs => xs.foldl min x

/-- Ascending `sorted(scores)`. -/
def sortAscRat (l : List Rat) : List Rat :=
  List.insertionSort (fun a b : Rat => a ≤ b) l

/-- `Leaderboard.get_statistics`. -/
def Leaderboard.get_statistics (lb : Leaderboard) : LeaderboardStats :=
  if lb.entries.isEmpty then
    { total_entries := 0, average_score := 0, highest_score := 0,
      lowest_score := 0, median_score := none }
  else
    let scores := lb.entries.map (·.score)
    { total_entries := lb.entries.length
      average_score := scores.sum / (scores.length : Rat)
      highest_score := pyListMax scores
      lowest_score := pyListMin scores
      median_score := some ((sortAscRat scores).getD (scores.length / 2) 0) }

theorem foldl_max_mem : ∀ (xs : List Rat) (a : Rat),
    xs.foldl max a = a ∨ xs.foldl max a ∈ xs := by
  intro xs
  induction xs with
  | nil => intro a; exact Or.inl rfl
  | cons x xs ih =>
    intro a
    rcases ih (max a x) with h | h
    · rcases max_choice a x with hc | hc
      · exact Or.inl (by rw [List.foldl_cons, h, hc])
      · exact Or.inr (by rw [List.foldl_cons, h, hc]; exact List.mem_cons_self x xs)
    · exact Or.inr (List.mem_cons_of_mem x h)

theorem le_foldl_max_init : ∀ (xs : List Rat) (a : Rat), a ≤ xs.foldl max a := by
  intro xs
  induction xs with
  | nil => intro a; exact le_refl a
  | cons x xs ih =>
    intro a
    exact le_trans (le_max_left a x) (ih (max a x))

theorem le_foldl_max_of_mem : ∀ (xs : List Rat) (a x : Rat),
    x ∈ xs → x ≤ xs.foldl max a := by
  intro xs
  induction xs with
  | nil => intro a x hx; exact absurd hx (List.not_mem_nil x)
  | cons y ys ih =>
    intro a x hx
    rcases List.mem_cons.mp hx with rfl | hx'
    · exact le_trans (le_max_right a x) (le_foldl_max_init ys (max a x))
    · exact ih (max a y) x hx'

theorem foldl_min_mem : ∀ (xs : List Rat) (a : Rat),
    xs.foldl min a = a ∨ xs.foldl min a ∈ xs := by
  intro xs
  induction xs with
  | nil => intro a; exact Or.inl rfl
  | cons x xs ih =>
    intro a
    rcases ih (min a x) with h | h
    · rcases min_choice a x with hc | hc
      · exact Or.inl (by rw [List.foldl_cons, h, hc])
      · exact Or.inr (by rw [List.foldl_cons, h, hc]; exact List.mem_cons_self x xs)
    · exact Or.inr (List.mem_cons_of_mem x h)

theorem foldl_min_le_init : ∀ (xs : List Rat) (a : Rat), xs.foldl min a ≤ a := by
  intro xs
  induction xs with
  | nil => intro a; exact le_refl a
  | cons x xs ih =>
    intro a
    exact le_trans (ih (min a x)) (min_le_left a x)

theorem foldl_min_le_of_mem : ∀ (xs : List Rat) (a x : Rat),
    x ∈ xs → xs.foldl min a ≤ x := by
  intro xs
  induction xs with
  | nil => intro a x hx; exact absurd hx (List.not_mem_nil x)
  | cons y ys ih =>
    intro a x hx
    rcases List.mem_cons.mp hx with rfl | hx'
    · exact le_trans (foldl_min_le_init ys (min a x)) (min_le_right a x)
    · exact ih (min a y) x hx'

theorem pyListMax_mem (l : List Rat) (h : l ≠ []) : pyListMax l ∈ l := by
  match l with
  | [] => exact absurd rfl h
  | x :: xs =>
    rcases foldl_max_mem xs x with h' | h'
    · rw [pyListMax, h']; exact List.mem_cons_self x xs
    · exact List.mem_cons_of_mem x (by rw [pyListMax]; exact h')

theorem le_pyListMax (l : List Rat) (x : Rat) (hx : x ∈ l) : x ≤ pyListMax l := by
  match l with
  | [] => exact absurd hx (List.not_mem_nil x)
  | y :: ys =>
    rcases List.mem_cons.mp hx with rfl | hx'
    · exact le_foldl_max_init ys x
    · exact le_foldl_max_of_mem ys y x hx'

theorem pyListMin_mem (l : List Rat) (h : l ≠ []) : pyListMin l ∈ l := by
  match l with
  | [] => exact absurd rfl h
  | x :: xs =>
    rcases foldl_min_mem xs x with h' | h'
    · rw [pyListMin, h']; exact List.mem_cons_self x xs
    · exact List.mem_cons_of_mem x (by rw [pyListMin]; exact h')

theorem pyListMin_le (l : List Rat) (x : Rat) (hx : x ∈ l) : pyListMin l ≤ x := by
  match l with
  | [] => exact absurd hx (List.not_mem_nil x)
  | y :: ys =>
    rcases List.mem_cons.mp hx with rfl | hx'
    · exact foldl_min_le_init ys x
    · exact foldl_min_le_of_mem ys y x hx'

/-! ### Claim C8 -/

/-- A concrete leaderboard with no entries. -/
def emptyLeaderboard : Leaderboard :=
  { leaderboard_type := .all_time_wins
    entries := []
    last_updated := "2024-01-01T00:00:00Z"
    period_start := none
    period_end := none }

/-- C8 counterexample: on an empty leaderboard, `get_statistics` does not
return a zero median — the result carries no median value at all (the
empty-case dict in the source has no `median_score` key), refuting the
claim that all five statistics, including the median, are zero when
empty. -/
theorem claim_C8_counterexample :
    emptyLeaderboard.entries = [] ∧
      emptyLeaderboard.get_statistics.median_score = none ∧
      emptyLeaderboard.get_statistics.median_score ≠ some 0 :=
  ⟨rfl, rfl, by simp [Leaderboard.get_statistics, emptyLeaderboard]⟩

/-- C8 amended: `getStatistics` returns the entry count, the mean, the
maximum, the minimum and the middle element of the ascending-sorted score
list (positional median); when the leaderboard has no entries, the count,
mean, maximum and minimum are returned as zero and the median field is
omitted (absent), not returned as zero. -/
theorem claim_C8 (lb : Leaderboard) :
    (lb.entries = [] →
      lb.get_statistics =
        { total_entries := 0, average_score := 0, highest_score := 0,
          lowest_score := 0, median_score := none }) ∧
      (lb.entries ≠ [] →
        lb.get_statistics.total_entries = lb.entries.length ∧
          lb.get_statistics.average_score *
              ((lb.entries.map (·.score)).length : Rat) =
            (lb.entries.map (·.score)).sum ∧
          lb.get_statistics.highest_score ∈ lb.entries.map (·.score) ∧
          (∀ s ∈ lb.entries.map (·.score),
            s ≤ lb.get_statistics.highest_score) ∧
          lb.get_statistics.lowest_score ∈ lb.entries.map (·.score) ∧
          (∀ s ∈ lb.entries.map (·.score),
            lb.get_statistics.lowest_score ≤ s) ∧
          ∃ sorted : List Rat,
            sorted.Perm (lb.entries.map (·.score)) ∧
              sorted.Sorted (· ≤ ·) ∧
              lb.get_statistics.median_score =
                some (sorted.getD ((lb.entries.map (·.score)).length / 2) 0)) := by
  constructor
  · intro h
    simp [Leaderboard.get_statistics, h]
  · intro h
    have hne : ¬ lb.entries.isEmpty := by
      simpa [List.isEmpty_iff] using h
    have hmapne : lb.entries.map (·.score) ≠ [] := by
      simpa using h
    have hlen0 : ((lb.entries.map (·.score)).length : Rat) ≠ 0 := by
      have : 0 < (lb.entries.map (·.score)).length :=
        List.length_pos.mpr hmapne
      exact_mod_cast Nat.pos_iff_ne_zero.mp this
    refine ⟨?_, ?_, ?_, ?_, ?_, ?_, ?_⟩
    · simp [Leaderboard.get_statistics, hne]
    · simp only [Leaderboard.get_statistics, hne, if_false, Bool.false_eq_true]
      exact div_mul_cancel₀ _ hlen0
    · simp only [Leaderboard.get_statistics, hne, if_false, Bool.false_eq_true]
      exact pyListMax_mem _ hmapne
    · intro s hs
      simp only [Leaderboard.get_statistics, hne, if_false, Bool.false_eq_true]
      exact le_pyListMax _ s hs
    · simp only [Leaderboard.get_statistics, hne, if_false, Bool.false_eq_true]
      exact pyListMin_mem _ hmapne
    · intro s hs
      simp only [Leaderboard.get_statistics, hne, if_false, Bool.false_eq_true]
      exact pyListMin_le _ s hs
    · refine ⟨sortAscRat (lb.entries.map (·.score)), ?_, ?_, ?_⟩
      · exact List.perm_insertionSort _ _
      · exact List.sorted_insertionSort _ _
      · simp [Leaderboard.get_statistics, hne, sortAscRat]

/-- A concrete three-entry leaderboard with scores 10, 10 and 7 (already
carrying valid positive ranks, as entries loaded via `from_dict` do). -/
def threeEntryBoard : Leaderboard :=
  { leaderboard_type := .all_time_wins
    entries := [⟨1, 1, 10, none⟩, ⟨2, 2, 10, none⟩, ⟨3, 3, 7, none⟩]
    last_updated := "2024-01-01T00:00:00Z"
    period_start := none
    period_end := none }

theorem claim_C8_witness :
    threeEntryBoard.entries ≠ [] ∧
      (threeEntryBoard.get_statistics.total_entries =
          threeEntryBoard.entries.length ∧
        threeEntryBoard.get_statistics.average_score *
            ((threeEntryBoard.entries.map (·.score)).length : Rat) =
          (threeEntryBoard.entries.map (·.score)).sum ∧
        threeEntryBoard.get_statistics.highest_score ∈
          threeEntryBoard.entries.map (·.score) ∧
        (∀ s ∈ threeEntryBoard.entries.map (·.score),
          s ≤ threeEntryBoard.get_statistics.highest_score) ∧
        threeEntryBoard.get_statistics.lowest_score ∈
          threeEntryBoard.entries.map (·.score) ∧
        (∀ s ∈ threeEntryBoard.entries.map (·.score),
          threeEntryBoard.get_statistics.lowest_score ≤ s) ∧
        ∃ sorted : List Rat,
          sorted.Perm (threeEntryBoard.entries.map (·.score)) ∧
            sorted.Sorted (· ≤ ·) ∧
            threeEntryBoard.get_statistics.median_score =
              some (sorted.getD
                ((threeEntryBoard.entries.map (·.score)).length / 2) 0)) :=
  ⟨by decide, (claim_C8 threeEntryBoard).2 (by decide)⟩

/-! ### Claim C4 -/

/-- The rank-assignment loop projected onto scores only: the assigned ranks
depend on nothing but the score sequence. -/
def rankAuxScores (prevScore : Rat) (prevRank pos : Int) : List Rat → List Int
  | [] => []
  | s :: l =>
    let r := if s = prevScore then prevRank else pos
    r :: rankAuxScores s r (pos + 1) l

def ranksOfScores : List Rat → List Int
  | [] => []
  | s :: l => 1 :: rankAuxScores s 1 2 l

theorem rankAux_map_rank :
    ∀ (l : List LeaderboardEntry) (ps : Rat) (pr pos : Int),
      (rankAux ps pr pos l).map (·.rank) =
        rankAuxScores ps pr pos (l.map (·.score)) := by
  intro l
  induction l with
  | nil => intro ps pr pos; rfl
  | cons e l ih =>
    intro ps pr pos
    simp [rankAux, rankAuxScores, ih]

theorem assignRanks_map_rank (l : List LeaderboardEntry) :
    (assignRanks l).map (·.rank) = ranksOfScores (l.map (·.score)) := by
  match l with
  | [] => rfl
  | e :: l => simp [assignRanks, ranksOfScores, rankAux_map_rank]

instance : IsAntisymm Rat (fun x y : Rat => y ≤ x) :=
  ⟨fun _ _ h1 h2 => le_antisymm h2 h1⟩

/-- The score sequence of `sortDesc l` is the unique descending-sorted
permutation of the score multiset of `l`. -/
theorem sortDesc_scores_eq (l : List LeaderboardEntry) (target : List Rat)
    (hperm : (l.map (·.score)).Perm target)
    (hsorted : target.Sorted (fun x y : Rat => y ≤ x)) :
    (sortDesc l).map (·.score) = target := by
  have hp : ((sortDesc l).map (·.score)).Perm target :=
    ((List.perm_insertionSort scoreDesc l).map (·.score)).trans hperm
  have hs : ((sortDesc l).map (·.score)).Sorted (fun x y : Rat => y ≤ x) := by
    have := List.sorted_insertionSort scoreDesc l
    exact List.pairwise_map.mpr this
  exact List.eq_of_perm_of_sorted hp hs hsorted

/-- C4 (the code at the claim's failing input, plus the part of the claim the
code does satisfy): (1) `add_or_update_entry` for a user with no existing
entry always fails with the rank-must-be-positive validation error — the new
entry is constructed with the provisional rank 0 that the entry's own
validation rejects, so the claimed insertion scenario never reaches
`recalculate_ranks`; (2) on a leaderboard already holding entries with
scores 10, 10 and 7 in any order, `recalculate_ranks` does assign ranks
`[1, 1, 3]`. -/
theorem claim_C4 :
    (∀ (lb : Leaderboard) (uid : Int) (score : Rat) (dn : Option String)
        (now : String),
      0 < uid → ¬ (lb.entries.any (fun e => e.user_id = uid) = true) →
      lb.add_or_update_entry uid score dn now = .error .rankNotPositive) ∧
      (∀ lb : Leaderboard,
        lb.entries.Perm threeEntryBoard.entries →
        lb.recalculate_ranks.entries.map (·.rank) = [1, 1, 3]) := by
  constructor
  · intro lb uid score dn now hpos hnew
    unfold Leaderboard.add_or_update_entry mkLeaderboardEntry
    rw [if_neg hnew, if_neg (by omega : ¬ uid ≤ 0),
      if_pos (le_refl (0 : Int))]
  · intro lb hp
    have hscores : (sortDesc lb.entries).map (·.score) = [10, 10, 7] := by
      refine sortDesc_scores_eq lb.entries [10, 10, 7] ?_ ?_
      · have : (lb.entries.map (·.score)).Perm (threeEntryBoard.entries.map (·.score)) :=
          hp.map (·.score)
        simpa [threeEntryBoard] using this
      · simp [List.Sorted]
        norm_num
    show (assignRanks (sortDesc lb.entries)).map (·.rank) = [1, 1, 3]
    rw [assignRanks_map_rank, hscores]
    rfl

theorem claim_C4_witness :
    ((0 : Int) < 9 ∧
        ¬ (emptyLeaderboard.entries.any (fun e => e.user_id = 9) = true) ∧
        emptyLeaderboard.add_or_update_entry 9 10 none "t" =
          .error .rankNotPositive) ∧
      (threeEntryBoard.entries.Perm threeEntryBoard.entries ∧
        threeEntryBoard.recalculate_ranks.entries.map (·.rank) = [1, 1, 3]) :=
  ⟨⟨by decide, by decide,
      claim_C4.1 emptyLeaderboard 9 10 none "t" (by decide) (by decide)⟩,
    ⟨List.Perm.refl _, claim_C4.2 threeEntryBoard (List.Perm.refl _)⟩⟩

/-! ### Leaderboard collection and achievements
(src/data/models/leaderboard.py, src/data/repositories/leaderboard_repository.py) -/

/-- `LeaderboardCollection` (the `achievement_definitions` display map is
pure presentation data no claim reads). -/
structure LeaderboardCollection where
  leaderboards : List (String × Leaderboard)
  user_achievements : List (Int × List Achievement)
  deriving Repr, DecidableEq

/-- `LeaderboardCollection.award_achievement`.  The source first inserts an
empty list for an unknown user id, then scans for the achievement id,
returning `False` when already earned, and otherwise constructs an
`Achievement` (whose validation can raise) and appends it.
`LeaderboardRepository.award_achievement` delegates here and only adds
persistence. -/
def LeaderboardCollection.award_achievement (coll : LeaderboardCollection)
    (user_id : Int) (achievement_id : String)
    (achievement_type : AchievementType) (now : String)
    (competition_id : Option String) :
    Except ValidationErr Bool × LeaderboardCollection :=
  let coll1 :=
    if (lookupKey user_id coll.user_achievements).isSome then coll
    else { coll with
      user_achievements := setKey user_id [] coll.user_achievements }
  let cur := (lookupKey user_id coll1.user_achievements).getD []
  if cur.any (fun a => a.achievement_id = achievement_id) then
    (.ok false, coll1)
  else
    match mkAchievement achievement_type achievement_id now competition_id with
    | .error e => (.error e, coll1)
    | .ok na =>
      (.ok true,
        { coll1 with
          user_achievements :=
            setKey user_id (cur ++ [na]) coll1.user_achievements })

/-- The achievement ids a user currently holds. -/
def heldIds (coll : LeaderboardCollection) (user_id : Int) : List String :=
  ((lookupKey user_id coll.user_achievements).getD []).map (·.achievement_id)

theorem award_already_held (coll : LeaderboardCollection) (user_id : Int)
    (aid : String) (atype : AchievementType) (now : String)
    (cid : Option String) (h : aid ∈ heldIds coll user_id) :
    coll.award_achievement user_id aid atype now cid = (.ok false, coll) := by
  rcases hl : lookupKey user_id coll.user_achievements with _ | cur
  · exact absurd h (by simp [heldIds, hl])
  · have hsome : (lookupKey user_id coll.user_achievements).isSome = true := by
      rw [hl]; rfl
    have hany : cur.any (fun a => a.achievement_id = aid) = true := by
      rcases List.mem_map.mp (by simpa [heldIds, hl] using h) with ⟨a, ha, hae⟩
      exact List.any_eq_true.mpr ⟨a, ha, by simp [hae]⟩
    unfold LeaderboardCollection.award_achievement
    rw [if_pos hsome]
    simp only [hl, Option.getD_some]
    rw [if_pos hany]

theorem award_fresh (coll : LeaderboardCollection) (user_id : Int)
    (aid : String) (atype : AchievementType) (now : String)
    (cid : Option String) (hnot : aid ∉ heldIds coll user_id)
    (hid : ¬ (pyStrip aid).length = 0) :
    (coll.award_achievement user_id aid atype now cid).1 = .ok true ∧
      lookupKey user_id
          (coll.award_achievement user_id aid atype now cid).2.user_achievements =
        some (((lookupKey user_id coll.user_achievements).getD []) ++
          [⟨atype, aid, now, cid⟩]) ∧
      (∀ v : Int, v ≠ user_id →
        lookupKey v
            (coll.award_achievement user_id aid atype now cid).2.user_achievements =
          lookupKey v coll.user_achievements) := by
  have hmk : mkAchievement atype aid now cid =
      .ok ⟨atype, aid, now, cid⟩ := by
    unfold mkAchievement
    rw [if_neg hid]
  rcases hl : lookupKey user_id coll.user_achievements with _ | cur
  · have hsome : ¬ ((lookupKey user_id coll.user_achievements).isSome = true) := by
      rw [hl]; simp
    have hcur : lookupKey user_id
        (setKey user_id ([] : List Achievement) coll.user_achievements) =
        some [] := lookupKey_setKey_self user_id [] _
    have hany : (([] : List Achievement)).any
        (fun a => a.achievement_id = aid) = false := rfl
    unfold LeaderboardCollection.award_achievement
    rw [if_neg hsome]
    simp only [hcur, Option.getD_some, List.any_nil, Bool.false_eq_true,
      if_false, hmk]
    refine ⟨by trivial, ?_, ?_⟩
    · simp only [hl, Option.getD_none, List.nil_append]
      exact lookupKey_setKey_self user_id _ _
    · intro v hv
      rw [lookupKey_setKey_ne user_id v _ hv, lookupKey_setKey_ne user_id v _ hv]
  · have hsome : (lookupKey user_id coll.user_achievements).isSome = true := by
      rw [hl]; rfl
    have hany : cur.any (fun a => a.achievement_id = aid) = false := by
      rw [List.any_eq_false]
      intro a ha
      simp only [decide_eq_true_eq]
      intro hae
      exact hnot (by
        simp only [heldIds, hl, Option.getD_some]
        exact List.mem_map.mpr ⟨a, ha, hae⟩)
    unfold LeaderboardCollection.award_achievement
    rw [if_pos hsome]
    simp only [hl, Option.getD_some, hany, Bool.false_eq_true, if_false, hmk]
    refine ⟨by trivial, ?_, ?_⟩
    · exact lookupKey_setKey_self user_id _ _
    · intro v hv
      exact lookupKey_setKey_ne user_id v _ hv _

/-! ### Claim C6 -/

/-- C6: awarding the same achievement id twice to the same user (who does
not hold it yet, with a non-blank id) returns `True` the first time and
`False` the second; the user's achievement list grows by exactly one across
the two calls, and the second call leaves the whole collection unchanged. -/
theorem claim_C6 (coll : LeaderboardCollection) (user_id : Int)
    (aid : String) (atype : AchievementType) (now1 now2 : String)
    (cid : Option String) (hnot : aid ∉ heldIds coll user_id)
    (hid : ¬ (pyStrip aid).length = 0) :
    (coll.award_achievement user_id aid atype now1 cid).1 = .ok true ∧
      ((coll.award_achievement user_id aid atype now1 cid).2.award_achievement
          user_id aid atype now2 cid).1 = .ok false ∧
      ((coll.award_achievement user_id aid atype now1 cid).2.award_achievement
          user_id aid atype now2 cid).2 =
        (coll.award_achievement user_id aid atype now1 cid).2 ∧
      ((lookupKey user_id
          (coll.award_achievement user_id aid atype now1 cid).2.user_achievements).getD
            []).length =
        ((lookupKey user_id coll.user_achievements).getD []).length + 1 := by
  obtain ⟨h1, h2, _⟩ := award_fresh coll user_id aid atype now1 cid hnot hid
  have hheld : aid ∈ heldIds
      (coll.award_achievement user_id aid atype now1 cid).2 user_id := by
    simp [heldIds, h2]
  have hsecond := award_already_held
    (coll.award_achievement user_id aid atype now1 cid).2 user_id aid atype
    now2 cid hheld
  refine ⟨h1, ?_, ?_, ?_⟩
  · rw [hsecond]
  · rw [hsecond]
  · rw [h2]
    simp

theorem claim_C6_witness :
    ("first_win" ∉ heldIds ⟨[], []⟩ 42 ∧
        ¬ (pyStrip "first_win").length = 0) ∧
      ((⟨[], []⟩ : LeaderboardCollection).award_achievement 42 "first_win"
          .first_win "t1" none).1 = .ok true ∧
        (((⟨[], []⟩ : LeaderboardCollection).award_achievement 42 "first_win"
            .first_win "t1" none).2.award_achievement 42 "first_win"
            .first_win "t2" none).1 = .ok false ∧
        (((⟨[], []⟩ : LeaderboardCollection).award_achievement 42 "first_win"
            .first_win "t1" none).2.award_achievement 42 "first_win"
            .first_win "t2" none).2 =
          ((⟨[], []⟩ : LeaderboardCollection).award_achievement 42 "first_win"
            .first_win "t1" none).2 ∧
        ((lookupKey 42
            ((⟨[], []⟩ : LeaderboardCollection).award_achievement 42 "first_win"
              .first_win "t1" none).2.user_achievements).getD []).length =
          ((lookupKey 42
            (⟨[], []⟩ : LeaderboardCollection).user_achievements).getD []).length + 1 :=
  ⟨⟨by decide, by decide⟩,
    claim_C6 ⟨[], []⟩ 42 "first_win" .first_win "t1" "t2" none
      (by decide) (by decide)⟩

/-! ### Claim C5 -/

/-- One conditional award attempt inside
`check_and_award_achievements`: fires when `cond` holds. -/
structure AwardCheck where
  cond : Bool
  aid : String
  atype : AchievementType
  cid : Option String
  deriving Repr

/-- One `if …: awarded = await self.award_achievement(…)` block of
`check_and_award_achievements`, threading the collection state and the
`awarded_achievements` accumulator (an earlier raised validation error
short-circuits the remaining blocks, as an exception would). -/
def awardCheckStep (uid : Int) (now : String) :
    Except ValidationErr (List String) × LeaderboardCollection → AwardCheck →
      Except ValidationErr (List String) × LeaderboardCollection
  | (.error e, c), _ => (.error e, c)
  | (.ok lst, c), s =>
    if s.cond then
      match c.award_achievement uid s.aid s.atype now s.cid with
      | (.error e, c') => (.error e, c')
      | (.ok true, c') => (.ok (lst ++ [s.aid]), c')
      | (.ok false, c') => (.ok lst, c')
    else (.ok lst, c)

def runAwardChecks (uid : Int) (now : String)
    (acc : Except ValidationErr (List String) × LeaderboardCollection)
    (checks : List AwardCheck) :
    Except ValidationErr (List String) × LeaderboardCollection :=
  checks.foldl (awardCheckStep uid now) acc

/-- The exact sequence of conditional award attempts the source makes: the
first-win check, then the participation-milestone loop, then the
win-milestone loop. -/
def achievementChecks (wins total_competitions : Int)
    (competition_id : Option String) : List AwardCheck :=
  ⟨decide (wins = 1), "first_win", .first_win, competition_id⟩ ::
    (([10, 25, 50, 100] : List Int).map (fun m =>
      ⟨decide (total_competitions = m), "participation_" ++ toString m,
        .participation_milestone, none⟩) ++
     ([5, 10, 25, 50] : List Int).map (fun m =>
      ⟨decide (wins = m), "multiple_wins_" ++ toString m,
        .multiple_wins, none⟩))

/-- `LeaderboardRepository.check_and_award_achievements` (its repository
`award_achievement` wrapper only adds persistence around the collection's
method). -/
def check_and_award_achievements (coll : LeaderboardCollection)
    (user_id wins total_competitions : Int) (competition_id : Option String)
    (now : String) :
    Except ValidationErr (List String) × LeaderboardCollection :=
  runAwardChecks user_id now (.ok [], coll)
    (achievementChecks wins total_competitions competition_id)

theorem runAwardChecks_ok (uid : Int) (now : String) :
    ∀ (checks : List AwardCheck) (acc : List String)
      (coll : LeaderboardCollection),
      (checks.map (·.aid)).Nodup →
      (∀ s ∈ checks, ¬ (pyStrip s.aid).length = 0) →
      ∃ coll',
        runAwardChecks uid now (.ok acc, coll) checks =
          (.ok (acc ++
            (checks.filter
              (fun s => s.cond && !(decide (s.aid ∈ heldIds coll uid)))).map
                (·.aid)), coll') ∧
          heldIds coll' uid =
            heldIds coll uid ++
              (checks.filter
                (fun s => s.cond && !(decide (s.aid ∈ heldIds coll uid)))).map
                  (·.aid) := by
  intro checks
  induction checks with
  | nil =>
    intro acc coll _ _
    exact ⟨coll, by simp [runAwardChecks], by simp⟩
  | cons s rest ih =>
    intro acc coll hnodup hblank
    have hmapc : ((s :: rest).map (·.aid)) = s.aid :: rest.map (·.aid) := rfl
    have hnodup' : (rest.map (·.aid)).Nodup :=
      (List.nodup_cons.mp (hmapc ▸ hnodup)).2
    have hs_notin : s.aid ∉ rest.map (·.aid) :=
      (List.nodup_cons.mp (hmapc ▸ hnodup)).1
    have hblank' : ∀ t ∈ rest, ¬ (pyStrip t.aid).length = 0 :=
      fun t ht => hblank t (List.mem_cons_of_mem s ht)
    have hrun : runAwardChecks uid now (.ok acc, coll) (s :: rest) =
        runAwardChecks uid now (awardCheckStep uid now (.ok acc, coll) s)
          rest := rfl
    by_cases hc : s.cond = true
    · by_cases hheld : s.aid ∈ heldIds coll uid
      · -- the id is already held: the step changes nothing
        have hstep : awardCheckStep uid now (.ok acc, coll) s =
            (.ok acc, coll) := by
          simp only [awardCheckStep, hc, if_true,
            award_already_held coll uid s.aid s.atype now s.cid hheld]
        have hps : (s.cond && !(decide (s.aid ∈ heldIds coll uid))) = false := by
          simp [hheld]
        obtain ⟨coll', hr1, hr2⟩ := ih acc coll hnodup' hblank'
        refine ⟨coll', ?_, ?_⟩
        · rw [hrun, hstep, List.filter_cons_of_neg (by simpa using hps), hr1]
        · rw [List.filter_cons_of_neg (by simpa using hps)]
          exact hr2
      · -- fresh id: the award succeeds and extends the held set
        obtain ⟨h1, h2, -⟩ :=
          award_fresh coll uid s.aid s.atype now s.cid hheld
            (hblank s (List.mem_cons_self s rest))
        have hpair : coll.award_achievement uid s.aid s.atype now s.cid =
            (.ok true,
              (coll.award_achievement uid s.aid s.atype now s.cid).2) := by
          rw [← h1]
        have hstep : awardCheckStep uid now (.ok acc, coll) s =
            (.ok (acc ++ [s.aid]),
              (coll.award_achievement uid s.aid s.atype now s.cid).2) := by
          simp only [awardCheckStep, hc, if_true]
          rw [hpair]
        have hheldC2 :
            heldIds (coll.award_achievement uid s.aid s.atype now s.cid).2 uid =
              heldIds coll uid ++ [s.aid] := by
          simp [heldIds, h2]
        obtain ⟨coll', hr1, hr2⟩ :=
          ih (acc ++ [s.aid])
            (coll.award_achievement uid s.aid s.atype now s.cid).2
            hnodup' hblank'
        have hfilter :
            rest.filter (fun t => t.cond &&
              !(decide (t.aid ∈ heldIds
                (coll.award_achievement uid s.aid s.atype now s.cid).2 uid))) =
            rest.filter (fun t => t.cond &&
              !(decide (t.aid ∈ heldIds coll uid))) := by
          apply List.filter_congr
          intro t ht
          have hta : t.aid ≠ s.aid := fun he =>
            hs_notin (he ▸ List.mem_map_of_mem (·.aid) ht)
          have hmem : (t.aid ∈ heldIds
              (coll.award_achievement uid s.aid s.atype now s.cid).2 uid) ↔
              (t.aid ∈ heldIds coll uid) := by
            rw [hheldC2]
            simp [hta]
          rw [decide_eq_decide.mpr hmem]
        have hps : (s.cond && !(decide (s.aid ∈ heldIds coll uid))) = true := by
          simp [hheld, hc]
        refine ⟨coll', ?_, ?_⟩
        · rw [hrun, hstep, hr1, hfilter,
            List.filter_cons_of_pos (by simpa using hps)]
          simp
        · rw [hr2, hfilter, hheldC2,
            List.filter_cons_of_pos (by simpa using hps)]
          simp
    · -- the condition does not fire: the step changes nothing
      have hcf : s.cond = false := by
        simpa using hc
      have hstep : awardCheckStep uid now (.ok acc, coll) s =
          (.ok acc, coll) := by
        simp only [awardCheckStep, hcf, Bool.false_eq_true, if_false]
      have hps : (s.cond && !(decide (s.aid ∈ heldIds coll uid))) = false := by
        simp [hcf]
      obtain ⟨coll', hr1, hr2⟩ := ih acc coll hnodup' hblank'
      refine ⟨coll', ?_, ?_⟩
      · rw [hrun, hstep, List.filter_cons_of_neg (by simpa using hps), hr1]
      · rw [List.filter_cons_of_neg (by simpa using hps)]
        exact hr2

/-- C5: `checkAndAwardAchievements` never raises for the built-in ids, it
appends exactly the newly granted ids to the user's held set, and the
returned list contains an id exactly when its milestone condition holds and
the user did not already hold it: `first_win` iff `wins = 1`,
`participation_m` iff `totalCompetitions = m` for `m ∈ {10,25,50,100}`, and
`multiple_wins_m` iff `wins = m` for `m ∈ {5,10,25,50}`. -/
theorem claim_C5 (coll : LeaderboardCollection)
    (user_id wins total_competitions : Int) (competition_id : Option String)
    (now : String) :
    ∃ res coll',
      check_and_award_achievements coll user_id wins total_competitions
          competition_id now = (.ok res, coll') ∧
        heldIds coll' user_id = heldIds coll user_id ++ res ∧
        ∀ r : String, r ∈ res ↔
          ((r = "first_win" ∧ wins = 1 ∧ r ∉ heldIds coll user_id) ∨
            (∃ m, m ∈ ([10, 25, 50, 100] : List Int) ∧
              total_competitions = m ∧
              r = "participation_" ++ toString m ∧
              r ∉ heldIds coll user_id) ∨
            (∃ m, m ∈ ([5, 10, 25, 50] : List Int) ∧ wins = m ∧
              r = "multiple_wins_" ++ toString m ∧
              r ∉ heldIds coll user_id)) := by
  have hmapEq :
      (achievementChecks wins total_competitions competition_id).map
        (·.aid) =
      ["first_win",
        "participation_" ++ toString (10 : Int),
        "participation_" ++ toString (25 : Int),
        "participation_" ++ toString (50 : Int),
        "participation_" ++ toString (100 : Int),
        "multiple_wins_" ++ toString (5 : Int),
        "multiple_wins_" ++ toString (10 : Int),
        "multiple_wins_" ++ toString (25 : Int),
        "multiple_wins_" ++ toString (50 : Int)] := rfl
  have hnodup :
      ((achievementChecks wins total_competitions competition_id).map
        (·.aid)).Nodup := by
    rw [hmapEq]
    decide
  have hblank : ∀ s ∈ achievementChecks wins total_competitions
      competition_id, ¬ (pyStrip s.aid).length = 0 := by
    intro st hst
    have hmem : st.aid ∈
        (achievementChecks wins total_competitions competition_id).map
          (·.aid) := List.mem_map_of_mem (·.aid) hst
    rw [hmapEq] at hmem
    simp only [List.mem_cons, List.not_mem_nil, or_false] at hmem
    rcases hmem with h | h | h | h | h | h | h | h | h <;> (rw [h]; decide)
  obtain ⟨coll', hrun, hheld⟩ := runAwardChecks_ok user_id now
    (achievementChecks wins total_competitions competition_id) [] coll
    hnodup hblank
  refine ⟨((achievementChecks wins total_competitions competition_id).filter
      (fun s => s.cond && !(decide (s.aid ∈ heldIds coll user_id)))).map
        (·.aid), coll', by simpa using hrun, by simpa using hheld, ?_⟩
  intro r
  have hmem_iff : ∀ p : AwardCheck → Bool,
      (r ∈ ((achievementChecks wins total_competitions
          competition_id).filter p).map (·.aid)) ↔
        ∃ s ∈ achievementChecks wins total_competitions competition_id,
          p s = true ∧ s.aid = r := by
    intro p
    simp [List.mem_map, List.mem_filter, and_assoc]
  rw [hmem_iff]
  constructor
  · rintro ⟨s, hs, hp, ha⟩
    simp only [achievementChecks, List.mem_cons, List.mem_append,
      List.mem_map] at hs
    rcases hs with rfl | ⟨m, hm, rfl⟩ | ⟨m, hm, rfl⟩
    · left
      have hp' : wins = 1 ∧ "first_win" ∉ heldIds coll user_id := by
        simpa using hp
      exact ⟨ha.symm, hp'.1, ha ▸ hp'.2⟩
    · right; left
      have hp' : total_competitions = m ∧
          ("participation_" ++ toString m) ∉ heldIds coll user_id := by
        simpa using hp
      exact ⟨m, by simpa using hm, hp'.1, ha.symm, ha ▸ hp'.2⟩
    · right; right
      have hp' : wins = m ∧
          ("multiple_wins_" ++ toString m) ∉ heldIds coll user_id := by
        simpa using hp
      exact ⟨m, by simpa using hm, hp'.1, ha.symm, ha ▸ hp'.2⟩
  · rintro (⟨rfl, hw, hh⟩ | ⟨m, hm, ht, rfl, hh⟩ | ⟨m, hm, hw, rfl, hh⟩)
    · refine ⟨⟨decide (wins = 1), "first_win", .first_win,
        competition_id⟩, ?_, ?_, rfl⟩
      · simp [achievementChecks]
      · simp [hw, hh]
    · refine ⟨⟨decide (total_competitions = m),
        "participation_" ++ toString m, .participation_milestone, none⟩,
        ?_, ?_, rfl⟩
      · simp only [achievementChecks, List.mem_cons, List.mem_append,
          List.mem_map]
        exact Or.inr (Or.inl ⟨m, by simpa using hm, rfl⟩)
      · simp [ht, hh]
    · refine ⟨⟨decide (wins = m),
        "multiple_wins_" ++ toString m, .multiple_wins, none⟩, ?_, ?_, rfl⟩
      · simp only [achievementChecks, List.mem_cons, List.mem_append,
          List.mem_map]
        exact Or.inr (Or.inr ⟨m, by simpa using hm, rfl⟩)
      · simp [hw, hh]

end OsrsClanButler
